import Mathlib

/-!
Shallow embedding of the llarp uTP link-layer session
(BaseSession / LinkLayer in the source file), together with proofs
about the fragment codec, the send queue, the receive path, the
handshake and session close.

Bytes are modelled as natural numbers (with mod 256 where the source
masks to a byte); buffers are lists of bytes.  The external
cryptographic primitives (XChaCha20, keyed HMAC) are out of scope in
the source; here XChaCha20 is XOR with an abstract keystream (which is
exactly what makes encryption and decryption the same in-place
operation, as the source relies on), and the keyed hash is an abstract
function parameter.
-/

namespace llarp

abbrev Bytes := List Nat

/-- constexpr size_t FragmentHashSize = 32. -/
def FragmentHashSize : Nat := 32

/-- constexpr size_t FragmentNonceSize = 24. -/
def FragmentNonceSize : Nat := 24

/-- constexpr size_t FragmentOverheadSize = FragmentHashSize + FragmentNonceSize. -/
def FragmentOverheadSize : Nat := FragmentHashSize + FragmentNonceSize

/-- constexpr size_t FragmentBodyPayloadSize = 512. -/
def FragmentBodyPayloadSize : Nat := 512

/-- constexpr size_t FragmentBodyOverhead = sizeof(uint32_t) * 2. -/
def FragmentBodyOverhead : Nat := 8

/-- constexpr size_t FragmentBodySize = FragmentBodyOverhead + FragmentBodyPayloadSize. -/
def FragmentBodySize : Nat := FragmentBodyOverhead + FragmentBodyPayloadSize

/-- constexpr size_t FragmentBufferSize = FragmentOverheadSize + FragmentBodySize (576). -/
def FragmentBufferSize : Nat := FragmentOverheadSize + FragmentBodySize

/-- htobe32buf: write a u32 as four big-endian bytes. -/
def htobe32buf (x : Nat) : Bytes :=
  [x / 16777216 % 256, x / 65536 % 256, x / 256 % 256, x % 256]

/-- bufbe32toh: read four big-endian bytes as a u32. -/
def bufbe32toh (l : Bytes) : Nat :=
  l.getD 0 0 % 256 * 16777216 + l.getD 1 0 % 256 * 65536 +
    l.getD 2 0 % 256 * 256 + l.getD 3 0 % 256

/-- llarp_buffer_read_uint32: read a big-endian u32 and advance the
cursor; fails when fewer than four bytes remain. -/
def llarp_buffer_read_uint32 (l : Bytes) : Option (Nat × Bytes) :=
  if l.length < 4 then none else some (bufbe32toh l, l.drop 4)

/-- Abstract XChaCha20 keystream: key, nonce and byte position to a
keystream byte. -/
abbrev Keystream := Bytes → Bytes → Nat → Nat

/-- Abstract keyed hash (HMAC family producing 32 bytes): key and data
to digest. -/
abbrev Hmac := Bytes → Bytes → Bytes

/-- Stream-cipher core: XOR each byte with the keystream byte at its
position (position counted from i). -/
def xchachaGo (ks : Nat → Nat) : Nat → Bytes → Bytes
  | _, [] => []
  | i, b :: rest => (b ^^^ ks i % 256) :: xchachaGo ks (i + 1) rest

/-- crypto.xchacha20 applied in place over a buffer: XOR with the
keystream selected by key and nonce. -/
def xchacha20 (ks : Keystream) (key nonce data : Bytes) : Bytes :=
  xchachaGo (ks key nonce) 0 data

/-- Bytes 32..576 of a sealed fragment as built by
BaseSession::EncryptThenHash: the 24-byte nonce (bytes 32..56 of the
pre-randomized buffer) followed by the XChaCha20 encryption of the
520-byte body [CONT_FLAG be32][LEN be32][payload][random padding].
rand stands for the 576 CSPRNG bytes written by buf.Randomize(). -/
def encryptThenHashTail (ks : Keystream) (key rand payload : Bytes)
    (isLastFragment : Bool) : Bytes :=
  let nonce := (rand.drop FragmentHashSize).take FragmentNonceSize
  let body := htobe32buf (if isLastFragment then 0 else 1) ++ htobe32buf payload.length
    ++ payload ++ rand.drop (FragmentOverheadSize + FragmentBodyOverhead + payload.length)
  nonce ++ xchacha20 ks key nonce body

/-- BaseSession::EncryptThenHash: the full 576-byte fragment, the
32-byte keyed hash of bytes 32..576 followed by those bytes.  The
state guard at the top of the source function is handled by the
callers (QueueWriteBuffers checks the state before sealing). -/
def encryptThenHash (ks : Keystream) (hm : Hmac) (key rand payload : Bytes)
    (isLastFragment : Bool) : Bytes :=
  hm key (encryptThenHashTail ks key rand payload isLastFragment) ++
    encryptThenHashTail ks key rand payload isLastFragment

/-- BaseSession::VerifyThenDecrypt.  recvMsg is the meaningful prefix
of the reassembly buffer (so recvMsgOffset is its length) and maxMsg
is the reassembly buffer capacity MAX_LINK_MSG_SIZE.  handleMsg is
Router()::HandleRecvLinkMessageBuffer.  Returns the new reassembly
prefix and the boolean result of the source function.  The source
memcpy copies LEN bytes unconditionally (reading past the fragment
when LEN exceeds 512); the embedding truncates at the fragment end,
which does not affect the returned boolean. -/
def verifyThenDecrypt (ks : Keystream) (hm : Hmac) (handleMsg : Bytes → Bool)
    (key : Bytes) (maxMsg : Nat) (recvMsg : Bytes) (buf : Bytes) : Bytes × Bool :=
  let digest := hm key (buf.drop FragmentHashSize)
  let expected := buf.take FragmentHashSize
  if expected ≠ digest then (recvMsg, false)
  else
    let nonce := (buf.drop FragmentHashSize).take FragmentNonceSize
    let body := xchacha20 ks key nonce (buf.drop FragmentOverheadSize)
    match llarp_buffer_read_uint32 body with
    | none => (recvMsg, false)
    | some (upper, rest) =>
      match llarp_buffer_read_uint32 rest with
      | none => (recvMsg, false)
      | some (lower, rest2) =>
        if lower + recvMsg.length > maxMsg then (recvMsg, false)
        else
          let newMsg := recvMsg ++ rest2.take lower
          if upper = 0 then (([] : Bytes), handleMsg newMsg)
          else (newMsg, true)

/-- BaseSession::State. -/
inductive State where
  | eInitial
  | eConnecting
  | eLinkEstablished
  | eCryptoHandshake
  | eSessionReady
  | eClose
deriving DecidableEq

/-- The fields of BaseSession that the modelled operations read or
write.  recvBuf holds the meaningful first recvBufOffset bytes of the
576-byte receive buffer; recvMsg holds the meaningful first
recvMsgOffset bytes of the reassembly buffer; sockOpen is whether the
utp socket pointer is non-null. -/
structure BaseSession where
  state : State
  gotLIM : Bool
  sessionKey : Bytes
  remoteRC : Bytes
  recvBuf : Bytes
  recvMsg : Bytes
  sendq : List Bytes
  sendBufOffset : Nat
  stalled : Bool
  sockOpen : Bool
  lastActive : Nat
deriving DecidableEq

/-- BaseSession::EnterState: set the state and refresh lastActive
(Alive()).  The MapAddr / HandleLinkSessionEstablished calls on
entering eSessionReady are external side effects. -/
def enterState (now : Nat) (st : State) (s : BaseSession) : BaseSession :=
  { s with state := st, lastActive := now }

/-- BaseSession::Close: shut down the transport when not already
closed, then EnterState(eClose) and clear the socket. -/
def close (now : Nat) (s : BaseSession) : BaseSession :=
  { s with state := State.eClose, lastActive := now, sockOpen := false }

/-- Whether a call to BaseSession::Close performs the transport
shutdown and close calls: it does exactly when the state is not yet
eClose. -/
def closeDidShutdown (s : BaseSession) : Bool :=
  decide (s.state ≠ State.eClose)

/-- The while loop of BaseSession::Recv: open full 576-byte fragments
in place and store any residual bytes in the receive buffer. -/
def recvFull (ks : Keystream) (hm : Hmac) (handleMsg : Bytes → Bool) (maxMsg : Nat)
    (s : BaseSession) (ptr : Bytes) : BaseSession × Bool :=
  if h : FragmentBufferSize ≤ ptr.length then
    let vd := verifyThenDecrypt ks hm handleMsg s.sessionKey maxMsg s.recvMsg
      (ptr.take FragmentBufferSize)
    if vd.2 then
      recvFull ks hm handleMsg maxMsg { s with recvMsg := vd.1 }
        (ptr.drop FragmentBufferSize)
    else ({ s with recvMsg := vd.1 }, false)
  else if ptr.length ≠ 0 then ({ s with recvBuf := ptr }, true)
  else (s, true)
termination_by ptr.length
decreasing_by
  simp only [List.length_drop]
  simp only [FragmentBufferSize, FragmentOverheadSize, FragmentHashSize,
    FragmentNonceSize, FragmentBodySize, FragmentBodyOverhead,
    FragmentBodyPayloadSize] at h ⊢
  omega

/-- BaseSession::Recv: reject when the session is not ready, refresh
lastActive, complete a partially received fragment from the receive
buffer, then process full fragments and keep leftovers. -/
def recv (ks : Keystream) (hm : Hmac) (handleMsg : Bytes → Bool) (maxMsg : Nat)
    (now : Nat) (s : BaseSession) (buf : Bytes) : BaseSession × Bool :=
  if s.state ≠ State.eSessionReady then (s, false)
  else
    let s1 := { s with lastActive := now }
    if s1.recvBuf.length ≠ 0 then
      let left := FragmentBufferSize - s1.recvBuf.length
      if left ≤ buf.length then
        let s2 := { s1 with recvBuf := [] }
        let vd := verifyThenDecrypt ks hm handleMsg s2.sessionKey maxMsg s2.recvMsg
          (s1.recvBuf ++ buf.take left)
        if vd.2 then
          recvFull ks hm handleMsg maxMsg { s2 with recvMsg := vd.1 } (buf.drop left)
        else ({ s2 with recvMsg := vd.1 }, false)
      else ({ s1 with recvBuf := s1.recvBuf ++ buf }, true)
    else recvFull ks hm handleMsg maxMsg s1 buf

/-- The fragmentation loop of BaseSession::QueueWriteBuffers: chunk
the message into pieces of at most 512 bytes, sealing each with fresh
randomness (rands i is the CSPRNG fill of the i-th fragment buffer)
and marking the final chunk as last. -/
def buildFragments (ks : Keystream) (hm : Hmac) (key : Bytes) (rands : Nat → Bytes)
    (i : Nat) (data : Bytes) : List Bytes :=
  if data.length = 0 then []
  else
    let s := min FragmentBodyPayloadSize data.length
    encryptThenHash ks hm key (rands i) (data.take s) (data.length - s == 0)
      :: buildFragments ks hm key rands (i + 1) (data.drop s)
termination_by data.length
decreasing_by
  simp only [List.length_drop]
  simp only [FragmentBodyPayloadSize]
  omega

/-- BaseSession::QueueWriteBuffers: fail when the session is not
ready, otherwise refresh lastActive and append the sealed fragments of
the message to the send queue. -/
def queueWriteBuffers (ks : Keystream) (hm : Hmac) (rands : Nat → Bytes) (now : Nat)
    (s : BaseSession) (buf : Bytes) : BaseSession × Bool :=
  if s.state ≠ State.eSessionReady then (s, false)
  else
    let q := s.sendq ++ buildFragments ks hm s.sessionKey rands 0 buf
    ({ s with lastActive := now, sendq := q }, true)

/-- The while loop of BaseSession::PumpWrite over the send queue.
accept k e is the number of bytes utp_write reports written on the
k-th write call when asked for e bytes; write_ll returns 0 when the
socket is null.  Returns the final sendBufOffset, stalled flag and
remaining queue. -/
def pumpWriteGo (accept : Nat → Nat → Nat) (sockOpen : Bool) :
    Nat → Nat → Bool → List Bytes → Nat × Bool × List Bytes
  | _, off, stalled, [] => (off, stalled, [])
  | k, off, stalled, f :: rest =>
    if stalled then (off, stalled, f :: rest)
    else
      let expect := FragmentBufferSize - off
      let w := if sockOpen then accept k expect else 0
      if w ≠ expect then (off + w, true, f :: rest)
      else pumpWriteGo accept sockOpen (k + 1) 0 false rest

/-- BaseSession::PumpWrite. -/
def pumpWrite (accept : Nat → Nat → Nat) (k : Nat) (s : BaseSession) : BaseSession :=
  let r := pumpWriteGo accept s.sockOpen k s.sendBufOffset s.stalled s.sendq
  { s with sendBufOffset := r.1, stalled := r.2.1, sendq := r.2.2 }

/-- The fields of LinkIntroMessage that BaseSession::RecvHandshake
reads: the enc pubkey of the embedded RouterContact and the key
exchange nonce N.  Serialization of the message is external. -/
structure LinkIntroMessage where
  rcEnckey : Bytes
  N : Bytes
deriving DecidableEq

/-- BaseSession::RecvHandshake.  bdecode is LinkIntroMessage::BDecode
(external), verifyLIM is LinkIntroMessage::HandleMessage (RouterContact
signature verification, external), dh is the server-side transport DH
closed over the transport secret key (external); each is abstract.
Mirrors the source control flow exactly, in particular that the
signature-failure branch returns without Close() and that the leftover
bytes are passed to Recv before EnterState(eSessionReady). -/
def recvHandshake (ks : Keystream) (hm : Hmac) (handleMsg : Bytes → Bool) (maxMsg : Nat)
    (bdecode : Bytes → Option LinkIntroMessage) (verifyLIM : LinkIntroMessage → Bool)
    (dh : Bytes → Bytes → Option Bytes) (protoVersion : Nat) (now : Nat)
    (s : BaseSession) (buf : Bytes) : BaseSession :=
  if buf.length ≤ 8 then close now s
  else if bufbe32toh buf ≠ protoVersion then close now s
  else
    let limsz := bufbe32toh (buf.drop 4)
    let sz := buf.length - 8
    let rest := buf.drop 8
    if sz < limsz then close now s
    else
      match bdecode (rest.take limsz) with
      | none => close now s
      | some msg =>
        if verifyLIM msg = false then s
        else
          let s1 := { s with remoteRC := msg.rcEnckey }
          match dh msg.rcEnckey msg.N with
          | none => close now s1
          | some k =>
            let s2 := { s1 with sessionKey := k }
            let s3 := if sz - limsz ≠ 0 then
                (recv ks hm handleMsg maxMsg now s2 (rest.drop limsz)).1
              else s2
            enterState now State.eSessionReady { s3 with gotLIM := true }

/-- LinkLayer::OnRead dispatch for a live session: ignore when closed,
Recv when ready (closing the session when Recv fails), RecvHandshake
when the link is established and the LIM is still pending. -/
def onRead (ks : Keystream) (hm : Hmac) (handleMsg : Bytes → Bool) (maxMsg : Nat)
    (bdecode : Bytes → Option LinkIntroMessage) (verifyLIM : LinkIntroMessage → Bool)
    (dh : Bytes → Bytes → Option Bytes) (protoVersion : Nat) (now : Nat)
    (s : BaseSession) (buf : Bytes) : BaseSession :=
  if s.state = State.eClose then s
  else if s.state = State.eSessionReady then
    let r := recv ks hm handleMsg maxMsg now s buf
    if r.2 then r.1 else close now r.1
  else if s.state = State.eLinkEstablished then
    recvHandshake ks hm handleMsg maxMsg bdecode verifyLIM dh protoVersion now s buf
  else s

/-- Flip the i-th bit (byte i / 8, bit i mod 8) of a buffer. -/
def flipBit (l : Bytes) (i : Nat) : Bytes :=
  l.set (i / 8) (l.getD (i / 8) 0 ^^^ (1 <<< (i % 8)))

/-- The decrypted CONT_FLAG field of a wire fragment, read as the
receiver does: decrypt bytes 56..576 with the in-band nonce and read
the first big-endian u32. -/
def fragContFlag (ks : Keystream) (key : Bytes) (f : Bytes) : Nat :=
  bufbe32toh (xchacha20 ks key ((f.drop FragmentHashSize).take FragmentNonceSize)
    (f.drop FragmentOverheadSize))

/-- The decrypted LEN field of a wire fragment. -/
def fragLen (ks : Keystream) (key : Bytes) (f : Bytes) : Nat :=
  bufbe32toh ((xchacha20 ks key ((f.drop FragmentHashSize).take FragmentNonceSize)
    (f.drop FragmentOverheadSize)).drop 4)

/-! Concrete instances used by the closed theorems and witnesses. -/

/-- All-zero keystream: XChaCha20 becomes the identity. -/
def ksZ : Keystream := fun _ _ _ => 0

/-- Constant keyed hash (32 zero bytes). -/
def hmacZ : Hmac := fun _ _ => List.replicate 32 0

/-- A concrete 576-byte CSPRNG fill (all zeros). -/
def rand0 : Bytes := List.replicate 576 0

/-- A ready session with an established (empty) session key. -/
def sessReady : BaseSession :=
  { state := State.eSessionReady, gotLIM := true, sessionKey := [], remoteRC := [],
    recvBuf := [], recvMsg := [], sendq := [], sendBufOffset := 0,
    stalled := false, sockOpen := true, lastActive := 0 }

/-- An inbound session right after the transport link is established,
before the handshake. -/
def sessLE : BaseSession :=
  { state := State.eLinkEstablished, gotLIM := false, sessionKey := [], remoteRC := [],
    recvBuf := [], recvMsg := [], sendq := [], sendBufOffset := 0,
    stalled := false, sockOpen := true, lastActive := 0 }

/-- Tail of a concrete sealed fragment, used to build a keyed hash
that is injective at that point. -/
def tail0 : Bytes := encryptThenHashTail ksZ [] rand0 [1, 2, 3] false

/-- A keyed hash that maps tail0 to one digest and every other input
to a different digest, so it is collision-free at tail0. -/
def hmacP : Hmac := fun _ y =>
  if y = tail0 then List.replicate 32 0 else 1 :: List.replicate 31 0

/-- A hand-built wire fragment that is MAC-valid under hmacZ / ksZ and
whose decrypted LEN field is 513, one more than the payload capacity:
[32-byte MAC][24-byte zero nonce][CONT_FLAG=1][LEN=513][512 zero bytes]. -/
def badFrag513 : Bytes :=
  List.replicate 32 0 ++ List.replicate 24 0 ++
    (htobe32buf 1 ++ htobe32buf 513 ++ List.replicate 512 0)

/-- A concrete LinkIntroMessage as delivered by the abstract decoder. -/
def lim0 : LinkIntroMessage := { rcEnckey := [], N := List.replicate 24 1 }

/-- Abstract LIM decoder that always succeeds with lim0. -/
def bdecodeC : Bytes → Option LinkIntroMessage := fun _ => some lim0

/-- Abstract RouterContact signature verification that fails. -/
def verifyF : LinkIntroMessage → Bool := fun _ => false

/-- Abstract RouterContact signature verification that succeeds. -/
def verifyT : LinkIntroMessage → Bool := fun _ => true

/-- Abstract server-side transport DH that succeeds with an empty key. -/
def dhC : Bytes → Bytes → Option Bytes := fun _ _ => some ([] : Bytes)

/-- A concrete handshake delivery: version 1, LIMSIZE 40, 40 LIM body
bytes, no trailing ciphertext. -/
def hsBuf : Bytes := htobe32buf 1 ++ htobe32buf 40 ++ List.replicate 40 9

/-- A concrete sealed trailing fragment (payload [5,6,7], CONT_FLAG 1). -/
def tf5 : Bytes := encryptThenHash ksZ hmacZ [] rand0 [5, 6, 7] false

/-- The handshake delivery hsBuf followed by the sealed fragment tf5
as trailing bytes of the same transport delivery. -/
def hsBufTrail : Bytes := hsBuf ++ tf5

/-- The session state RecvHandshake produces from sessLE on
hsBufTrail. -/
def sessAfterHS : BaseSession :=
  { state := State.eSessionReady, gotLIM := true, sessionKey := [], remoteRC := [],
    recvBuf := [], recvMsg := [], sendq := [], sendBufOffset := 0,
    stalled := false, sockOpen := true, lastActive := 7 }

set_option maxRecDepth 100000

/-! Helper lemmas about the byte-level primitives. -/

theorem length_xchachaGo (ks : Nat → Nat) (i : Nat) (l : Bytes) :
    (xchachaGo ks i l).length = l.length := by
  induction l generalizing i with
  | nil => rfl
  | cons b rest ih => simp [xchachaGo, ih]

theorem xchachaGo_invol (ks : Nat → Nat) (i : Nat) (l : Bytes) :
    xchachaGo ks i (xchachaGo ks i l) = l := by
  induction l generalizing i with
  | nil => rfl
  | cons b rest ih => simp [xchachaGo, ih, Nat.xor_assoc]

theorem length_xchacha20 (ks : Keystream) (key nonce data : Bytes) :
    (xchacha20 ks key nonce data).length = data.length :=
  length_xchachaGo _ _ _

theorem xchacha20_invol (ks : Keystream) (key nonce data : Bytes) :
    xchacha20 ks key nonce (xchacha20 ks key nonce data) = data :=
  xchachaGo_invol _ _ _

theorem length_htobe32buf (x : Nat) : (htobe32buf x).length = 4 := rfl

theorem bufbe32toh_htobe32buf (x : Nat) (hx : x < 4294967296) (r : Bytes) :
    bufbe32toh (htobe32buf x ++ r) = x := by
  simp only [bufbe32toh, htobe32buf, List.cons_append, List.getD_cons_zero,
    List.getD_cons_succ]
  omega

theorem read_uint32_htobe32buf (x : Nat) (hx : x < 4294967296) (r : Bytes) :
    llarp_buffer_read_uint32 (htobe32buf x ++ r) = some (x, r) := by
  have hlen : (htobe32buf x ++ r).length = 4 + r.length := by
    simp [length_htobe32buf]
  rw [llarp_buffer_read_uint32, if_neg (by omega)]
  rw [bufbe32toh_htobe32buf x hx r, List.drop_left' (length_htobe32buf x)]

/-! Structure of a sealed fragment. -/

theorem length_seal_nonce (rand : Bytes) (hrand : rand.length = 576) :
    ((rand.drop FragmentHashSize).take FragmentNonceSize).length = 24 := by
  simp [FragmentHashSize, FragmentNonceSize, hrand]

theorem length_encryptThenHashTail (ks : Keystream) (key rand payload : Bytes)
    (isLast : Bool) (hrand : rand.length = 576) (hpay : payload.length ≤ 512) :
    (encryptThenHashTail ks key rand payload isLast).length = 544 := by
  simp only [encryptThenHashTail, List.length_append, length_xchacha20,
    length_htobe32buf, List.length_take, List.length_drop, hrand,
    FragmentHashSize, FragmentNonceSize, FragmentOverheadSize, FragmentBodyOverhead]
  omega

theorem encryptThenHash_take (ks : Keystream) (hm : Hmac) (key rand payload : Bytes)
    (isLast : Bool) (h32 : (hm key (encryptThenHashTail ks key rand payload isLast)).length = 32) :
    (encryptThenHash ks hm key rand payload isLast).take FragmentHashSize
      = hm key (encryptThenHashTail ks key rand payload isLast) := by
  rw [encryptThenHash]
  exact List.take_left' h32

theorem encryptThenHash_drop (ks : Keystream) (hm : Hmac) (key rand payload : Bytes)
    (isLast : Bool) (h32 : (hm key (encryptThenHashTail ks key rand payload isLast)).length = 32) :
    (encryptThenHash ks hm key rand payload isLast).drop FragmentHashSize
      = encryptThenHashTail ks key rand payload isLast := by
  rw [encryptThenHash]
  exact List.drop_left' h32

theorem length_encryptThenHash (ks : Keystream) (hm : Hmac) (key rand payload : Bytes)
    (isLast : Bool) (hrand : rand.length = 576) (hpay : payload.length ≤ 512)
    (h32 : (hm key (encryptThenHashTail ks key rand payload isLast)).length = 32) :
    (encryptThenHash ks hm key rand payload isLast).length = 576 := by
  rw [encryptThenHash]
  simp [h32, length_encryptThenHashTail ks key rand payload isLast hrand hpay]

theorem encryptThenHashTail_drop24 (ks : Keystream) (key rand payload : Bytes)
    (isLast : Bool) (hrand : rand.length = 576) :
    (encryptThenHashTail ks key rand payload isLast).drop 24
      = xchacha20 ks key ((rand.drop FragmentHashSize).take FragmentNonceSize)
          (htobe32buf (if isLast then 0 else 1) ++ htobe32buf payload.length
            ++ payload
            ++ rand.drop (FragmentOverheadSize + FragmentBodyOverhead + payload.length)) := by
  rw [encryptThenHashTail]
  exact List.drop_left' (length_seal_nonce rand hrand)

theorem encryptThenHashTail_take24 (ks : Keystream) (key rand payload : Bytes)
    (isLast : Bool) (hrand : rand.length = 576) :
    (encryptThenHashTail ks key rand payload isLast).take 24
      = (rand.drop FragmentHashSize).take FragmentNonceSize := by
  rw [encryptThenHashTail]
  exact List.take_left' (length_seal_nonce rand hrand)

/-- Core round-trip computation: VerifyThenDecrypt applied to a
fragment sealed by EncryptThenHash with the same session key recovers
the payload; the message is delivered (and the reassembly buffer
reset) exactly when the fragment was sealed as last. -/
theorem verify_seal (ks : Keystream) (hm : Hmac) (key rand payload m : Bytes)
    (isLast : Bool) (handleMsg : Bytes → Bool) (maxMsg : Nat)
    (hrand : rand.length = 576) (hpay : payload.length ≤ 512)
    (hlen : ∀ x, (hm key x).length = 32)
    (hmax : payload.length + m.length ≤ maxMsg) :
    verifyThenDecrypt ks hm handleMsg key maxMsg m
      (encryptThenHash ks hm key rand payload isLast) =
      (if isLast then ([] : Bytes) else m ++ payload,
       if isLast then handleMsg (m ++ payload) else true) := by
  have h32 := hlen (encryptThenHashTail ks key rand payload isLast)
  have htk := encryptThenHash_take ks hm key rand payload isLast h32
  have hdr := encryptThenHash_drop ks hm key rand payload isLast h32
  have hdrop56 : (encryptThenHash ks hm key rand payload isLast).drop FragmentOverheadSize
      = (encryptThenHashTail ks key rand payload isLast).drop 24 := by
    have h5632 : FragmentOverheadSize = 32 + 24 := rfl
    rw [h5632, ← List.drop_drop, ← hdr]
    rfl
  rw [verifyThenDecrypt, htk, hdr, if_neg (by simp)]
  simp only [FragmentNonceSize]
  rw [encryptThenHashTail_take24 ks key rand payload isLast hrand]
  rw [hdrop56, encryptThenHashTail_drop24 ks key rand payload isLast hrand]
  rw [xchacha20_invol]
  rw [List.append_assoc, List.append_assoc]
  rw [read_uint32_htobe32buf _ (by split <;> omega) _]
  dsimp only
  rw [read_uint32_htobe32buf _ (by omega) _]
  dsimp only
  rw [if_neg (by omega)]
  rw [List.take_left' rfl]
  split
  · next hLast =>
    rw [if_pos (by simp [hLast])]
  · next hLast =>
    rw [if_neg (by simp [hLast])]

/-- Decrypting bytes 56..576 of a sealed fragment with the in-band
nonce recovers the plaintext body. -/
theorem seal_decrypt (ks : Keystream) (hm : Hmac) (key rand payload : Bytes)
    (isLast : Bool) (hrand : rand.length = 576)
    (h32 : (hm key (encryptThenHashTail ks key rand payload isLast)).length = 32) :
    xchacha20 ks key
        (((encryptThenHash ks hm key rand payload isLast).drop FragmentHashSize).take FragmentNonceSize)
        ((encryptThenHash ks hm key rand payload isLast).drop FragmentOverheadSize)
      = htobe32buf (if isLast then 0 else 1) ++ htobe32buf payload.length ++ payload
          ++ rand.drop (FragmentOverheadSize + FragmentBodyOverhead + payload.length) := by
  have hdr := encryptThenHash_drop ks hm key rand payload isLast h32
  have hdrop56 : (encryptThenHash ks hm key rand payload isLast).drop FragmentOverheadSize
      = (encryptThenHashTail ks key rand payload isLast).drop 24 := by
    have h5632 : FragmentOverheadSize = 32 + 24 := rfl
    rw [h5632, ← List.drop_drop, ← hdr]
    rfl
  rw [hdr]
  simp only [FragmentNonceSize]
  rw [encryptThenHashTail_take24 ks key rand payload isLast hrand]
  rw [hdrop56, encryptThenHashTail_drop24 ks key rand payload isLast hrand]
  exact xchacha20_invol ks key _ _

/-- The decrypted CONT_FLAG field of a sealed fragment is 0 when the
fragment was sealed as last and 1 otherwise. -/
theorem seal_fragContFlag (ks : Keystream) (hm : Hmac) (key rand payload : Bytes)
    (isLast : Bool) (hrand : rand.length = 576)
    (h32 : (hm key (encryptThenHashTail ks key rand payload isLast)).length = 32) :
    fragContFlag ks key (encryptThenHash ks hm key rand payload isLast)
      = (if isLast then 0 else 1) := by
  rw [fragContFlag, seal_decrypt ks hm key rand payload isLast hrand h32]
  rw [List.append_assoc, List.append_assoc]
  exact bufbe32toh_htobe32buf _ (by split <;> omega) _

/-- The decrypted LEN field of a sealed fragment is the payload
length. -/
theorem seal_fragLen (ks : Keystream) (hm : Hmac) (key rand payload : Bytes)
    (isLast : Bool) (hrand : rand.length = 576) (hpay : payload.length ≤ 512)
    (h32 : (hm key (encryptThenHashTail ks key rand payload isLast)).length = 32) :
    fragLen ks key (encryptThenHash ks hm key rand payload isLast) = payload.length := by
  rw [fragLen, seal_decrypt ks hm key rand payload isLast hrand h32]
  rw [List.append_assoc, List.append_assoc]
  rw [List.drop_left' (length_htobe32buf _)]
  exact bufbe32toh_htobe32buf _ (by omega) _

/-- C1: Seal then Open round trip.  For every session key, payload of
at most 512 bytes and isLast flag, VerifyThenDecrypt applied under the
same key to the fragment EncryptThenHash produced succeeds, appends
exactly the original payload bytes to the reassembly buffer (the
reassembled message is delivered upward and the buffer reset exactly
when isLast), and the decrypted CONT_FLAG field reports isLast as the
CONT_FLAG = 0 condition. -/
theorem C1_seal_open_roundtrip (ks : Keystream) (hm : Hmac) (key rand payload m : Bytes)
    (isLast : Bool) (handleMsg : Bytes → Bool) (maxMsg : Nat)
    (hrand : rand.length = 576) (hpay : payload.length ≤ 512)
    (hlen : ∀ x, (hm key x).length = 32)
    (hmax : payload.length + m.length ≤ maxMsg)
    (hdeliver : handleMsg (m ++ payload) = true) :
    verifyThenDecrypt ks hm handleMsg key maxMsg m
        (encryptThenHash ks hm key rand payload isLast) =
      (if isLast then ([] : Bytes) else m ++ payload, true) ∧
    fragContFlag ks key (encryptThenHash ks hm key rand payload isLast)
      = (if isLast then 0 else 1) := by
  constructor
  · rw [verify_seal ks hm key rand payload m isLast handleMsg maxMsg hrand hpay hlen hmax]
    cases isLast <;> simp [hdeliver]
  · exact seal_fragContFlag ks hm key rand payload isLast hrand (hlen _)

/-- Witness for C1 at a concrete key, randomness and payload. -/
theorem C1_witness :
    (rand0.length = 576 ∧ ([1, 2, 3] : Bytes).length ≤ 512 ∧
      (∀ x : Bytes, (hmacZ [] x).length = 32)) ∧
    verifyThenDecrypt ksZ hmacZ (fun _ => true) [] 8192 []
      (encryptThenHash ksZ hmacZ [] rand0 [1, 2, 3] true) = ([], true) := by
  refine ⟨⟨by simp [rand0], by decide, fun x => by simp [hmacZ]⟩, ?_⟩
  have h := C1_seal_open_roundtrip ksZ hmacZ [] rand0 [1, 2, 3] [] true (fun _ => true)
    8192 (by simp [rand0]) (by decide) (fun x => by simp [hmacZ]) (by decide) rfl
  simpa using h.1

/-! Helper lemmas for bit flipping. -/

theorem getD_append_left (l1 l2 : Bytes) (j d : Nat) (h : j < l1.length) :
    (l1 ++ l2).getD j d = l1.getD j d := by
  simp [List.getD_eq_getElem?_getD, List.getElem?_append, h]

theorem getD_append_right (l1 l2 : Bytes) (j d : Nat) (h : l1.length ≤ j) :
    (l1 ++ l2).getD j d = l2.getD (j - l1.length) d := by
  simp [List.getD_eq_getElem?_getD, List.getElem?_append_right h]

theorem getD_set_self (l : Bytes) (j a d : Nat) (h : j < l.length) :
    (l.set j a).getD j d = a := by
  simp [List.getD_eq_getElem?_getD, List.getElem?_set_self h]

theorem xor_shift_ne (a k : Nat) : a ^^^ (1 <<< k) ≠ a := by
  intro hEq
  have h1 : a ^^^ (a ^^^ (1 <<< k)) = a ^^^ a := by rw [hEq]
  rw [← Nat.xor_assoc, Nat.xor_self, Nat.zero_xor] at h1
  rw [Nat.one_shiftLeft] at h1
  have h2 : 0 < 2 ^ k := Nat.pow_pos (by omega)
  omega

/-- VerifyThenDecrypt returns failure and leaves the reassembly buffer
untouched whenever the stored MAC differs from the recomputed keyed
hash. -/
theorem verify_mac_fail (ks : Keystream) (hm : Hmac) (handleMsg : Bytes → Bool)
    (key : Bytes) (maxMsg : Nat) (m buf : Bytes)
    (h : buf.take FragmentHashSize ≠ hm key (buf.drop FragmentHashSize)) :
    verifyThenDecrypt ks hm handleMsg key maxMsg m buf = (m, false) := by
  rw [verifyThenDecrypt, if_pos h]

/-- C2: Authentication.  Flipping any single bit of a sealed 576-byte
fragment makes VerifyThenDecrypt fail with a MAC mismatch (the
recomputed keyed hash of bytes 32..576 differs from the stored MAC in
bytes 0..32) and leaves the reassembly buffer untouched.  Stated under
the standard assumption that the keyed hash has no collision at the
sealed tail for the fixed key. -/
theorem C2_authentication (ks : Keystream) (hm : Hmac) (key rand payload m : Bytes)
    (isLast : Bool) (handleMsg : Bytes → Bool) (maxMsg : Nat) (i : Nat)
    (hrand : rand.length = 576) (hpay : payload.length ≤ 512)
    (hlen : ∀ x, (hm key x).length = 32) (hi : i < 4608)
    (hinj : ∀ y : Bytes, y.length = 544 →
      y ≠ encryptThenHashTail ks key rand payload isLast →
      hm key y ≠ hm key (encryptThenHashTail ks key rand payload isLast)) :
    verifyThenDecrypt ks hm handleMsg key maxMsg m
        (flipBit (encryptThenHash ks hm key rand payload isLast) i) = (m, false) ∧
    (flipBit (encryptThenHash ks hm key rand payload isLast) i).take FragmentHashSize
      ≠ hm key ((flipBit (encryptThenHash ks hm key rand payload isLast) i).drop
          FragmentHashSize) := by
  have h32 := hlen (encryptThenHashTail ks key rand payload isLast)
  have hTlen := length_encryptThenHashTail ks key rand payload isLast hrand hpay
  have hj : i / 8 < 576 := by omega
  by_cases hcase : i / 8 < 32
  · -- the flipped bit lies in the stored MAC
    have hset : flipBit (encryptThenHash ks hm key rand payload isLast) i
        = (hm key (encryptThenHashTail ks key rand payload isLast)).set (i / 8)
            ((encryptThenHash ks hm key rand payload isLast).getD (i / 8) 0 ^^^ (1 <<< (i % 8)))
          ++ encryptThenHashTail ks key rand payload isLast := by
      rw [flipBit, encryptThenHash]
      exact List.set_append_left _ _ (by omega)
    have hGet : (encryptThenHash ks hm key rand payload isLast).getD (i / 8) 0
        = (hm key (encryptThenHashTail ks key rand payload isLast)).getD (i / 8) 0 := by
      rw [encryptThenHash]
      exact getD_append_left _ _ _ _ (by omega)
    have hne : (flipBit (encryptThenHash ks hm key rand payload isLast) i).take FragmentHashSize
        ≠ hm key ((flipBit (encryptThenHash ks hm key rand payload isLast) i).drop
            FragmentHashSize) := by
      rw [hset, List.take_left' (by simp [h32, FragmentHashSize]),
        List.drop_left' (by simp [h32, FragmentHashSize])]
      intro hEq
      have hD : ((hm key (encryptThenHashTail ks key rand payload isLast)).set (i / 8)
            ((encryptThenHash ks hm key rand payload isLast).getD (i / 8) 0 ^^^
              (1 <<< (i % 8)))).getD (i / 8) 0
          = (hm key (encryptThenHashTail ks key rand payload isLast)).getD (i / 8) 0 := by
        rw [hEq]
      rw [getD_set_self _ _ _ _ (by omega), hGet] at hD
      exact xor_shift_ne _ _ hD
    exact ⟨verify_mac_fail ks hm handleMsg key maxMsg m _ hne, hne⟩
  · -- the flipped bit lies in the hashed region, bytes 32..576
    have hjge : 32 ≤ i / 8 := by omega
    have hset : flipBit (encryptThenHash ks hm key rand payload isLast) i
        = hm key (encryptThenHashTail ks key rand payload isLast)
          ++ (encryptThenHashTail ks key rand payload isLast).set (i / 8 - 32)
            ((encryptThenHash ks hm key rand payload isLast).getD (i / 8) 0 ^^^ (1 <<< (i % 8))) := by
      rw [flipBit]
      generalize (encryptThenHash ks hm key rand payload isLast).getD (i / 8) 0 ^^^
        (1 <<< (i % 8)) = x
      rw [encryptThenHash]
      rw [@List.set_append_right Nat
        (hm key (encryptThenHashTail ks key rand payload isLast))
        (encryptThenHashTail ks key rand payload isLast) (i / 8) x (by omega), h32]
    have hGet : (encryptThenHash ks hm key rand payload isLast).getD (i / 8) 0
        = (encryptThenHashTail ks key rand payload isLast).getD (i / 8 - 32) 0 := by
      rw [encryptThenHash]
      rw [getD_append_right (hm key (encryptThenHashTail ks key rand payload isLast))
        (encryptThenHashTail ks key rand payload isLast) (i / 8) 0 (by omega), h32]
    have hTne : (encryptThenHashTail ks key rand payload isLast).set (i / 8 - 32)
          ((encryptThenHash ks hm key rand payload isLast).getD (i / 8) 0 ^^^ (1 <<< (i % 8)))
        ≠ encryptThenHashTail ks key rand payload isLast := by
      intro hEq
      have hD := congrArg (fun l => List.getD l (i / 8 - 32) 0) hEq
      simp only at hD
      rw [getD_set_self _ _ _ _ (by omega), hGet] at hD
      exact xor_shift_ne _ _ hD
    have hne : (flipBit (encryptThenHash ks hm key rand payload isLast) i).take FragmentHashSize
        ≠ hm key ((flipBit (encryptThenHash ks hm key rand payload isLast) i).drop
            FragmentHashSize) := by
      rw [hset, List.take_left' (by simp [h32, FragmentHashSize]),
        List.drop_left' (by simp [h32, FragmentHashSize])]
      exact fun hEq => hinj _ (by simp [hTlen]) hTne hEq.symm
    exact ⟨verify_mac_fail ks hm handleMsg key maxMsg m _ hne, hne⟩

/-- Witness for C2 at a concrete sealed fragment, flipping bit 0 (a
MAC byte), with a keyed hash that is collision-free at the sealed
tail. -/
theorem C2_witness :
    ((0 : Nat) < 4608 ∧ (∀ x : Bytes, (hmacP [] x).length = 32)) ∧
    verifyThenDecrypt ksZ hmacP (fun _ => true) [] 8192 []
      (flipBit (encryptThenHash ksZ hmacP [] rand0 [1, 2, 3] false) 0) = ([], false) := by
  have hlen : ∀ x : Bytes, (hmacP [] x).length = 32 := by
    intro x
    simp only [hmacP]
    split
    · simp
    · simp
  have hinj : ∀ y : Bytes, y.length = 544 →
      y ≠ encryptThenHashTail ksZ [] rand0 [1, 2, 3] false →
      hmacP [] y ≠ hmacP [] (encryptThenHashTail ksZ [] rand0 [1, 2, 3] false) := by
    intro y hy hne
    have h1 : hmacP [] y = 1 :: List.replicate 31 0 := by
      simp only [hmacP]
      exact if_neg hne
    have h2 : hmacP [] (encryptThenHashTail ksZ [] rand0 [1, 2, 3] false)
        = List.replicate 32 0 := by
      simp only [hmacP]
      exact if_pos rfl
    rw [h1, h2]
    decide
  refine ⟨⟨by decide, hlen⟩, ?_⟩
  exact (C2_authentication ksZ hmacP [] rand0 [1, 2, 3] [] false (fun _ => true) 8192 0
    (by simp [rand0]) (by decide) hlen (by decide) hinj).1

/-- C3: the source VerifyThenDecrypt has no LEN ≤ 512 check.  The
hand-built MAC-valid fragment badFrag513 decrypts to LEN = 513, one
more than the 512-byte payload capacity, yet VerifyThenDecrypt accepts
it (returns true, copying bytes past the payload region), against the
specified LengthInvalid error.  The reassembly-capacity check is
present: with a capacity below 513 the same fragment is rejected with
nothing appended. -/
theorem C3_no_len_check :
    fragLen ksZ [] badFrag513 = 513 ∧
    FragmentBodyPayloadSize < fragLen ksZ [] badFrag513 ∧
    verifyThenDecrypt ksZ hmacZ (fun _ => true) [] 8192 [] badFrag513 =
      (List.replicate 512 0, true) ∧
    verifyThenDecrypt ksZ hmacZ (fun _ => true) [] 400 [] badFrag513 = ([], false) := by
  refine ⟨by decide, by decide, by decide, by decide⟩

/-- C4 counterexample: a handshake delivery whose LinkIntro parses but
whose RouterContact signature verification fails does NOT transition
the session to eClose: RecvHandshake returns with the session still in
eLinkEstablished. -/
theorem C4_counterexample :
    (recvHandshake ksZ hmacZ (fun _ => true) 8192 bdecodeC verifyF dhC 1 7 sessLE
        hsBuf).state = State.eLinkEstablished ∧
    (recvHandshake ksZ hmacZ (fun _ => true) 8192 bdecodeC verifyF dhC 1 7 sessLE
        hsBuf).state ≠ State.eClose := by
  refine ⟨by decide, by decide⟩

/-- C4 (amended): for every inbound handshake delivery whose LinkIntro
parses but whose embedded RouterContact signature fails verification,
RecvHandshake returns early leaving the session unchanged: it is not
closed (unlike every other error path of RecvHandshake, no Close is
performed) and it never reaches eSessionReady in that delivery. -/
theorem C4_sig_invalid_leaves_session (ks : Keystream) (hm : Hmac)
    (handleMsg : Bytes → Bool) (maxMsg : Nat)
    (bdecode : Bytes → Option LinkIntroMessage) (verifyLIM : LinkIntroMessage → Bool)
    (dh : Bytes → Bytes → Option Bytes) (protoVersion now : Nat)
    (s : BaseSession) (buf : Bytes) (msg : LinkIntroMessage)
    (h1 : ¬ buf.length ≤ 8) (h2 : bufbe32toh buf = protoVersion)
    (h3 : ¬ buf.length - 8 < bufbe32toh (buf.drop 4))
    (h4 : bdecode ((buf.drop 8).take (bufbe32toh (buf.drop 4))) = some msg)
    (h5 : verifyLIM msg = false) :
    recvHandshake ks hm handleMsg maxMsg bdecode verifyLIM dh protoVersion now s buf = s ∧
    (s.state = State.eLinkEstablished →
      (recvHandshake ks hm handleMsg maxMsg bdecode verifyLIM dh protoVersion now s
          buf).state ≠ State.eClose ∧
      (recvHandshake ks hm handleMsg maxMsg bdecode verifyLIM dh protoVersion now s
          buf).state ≠ State.eSessionReady) := by
  have hmain : recvHandshake ks hm handleMsg maxMsg bdecode verifyLIM dh protoVersion now
      s buf = s := by
    rw [recvHandshake, if_neg h1, if_neg (by simp [h2])]
    dsimp only
    rw [if_neg h3, h4]
    dsimp only
    rw [if_pos h5]
  refine ⟨hmain, fun hs => ⟨?_, ?_⟩⟩
  · rw [hmain, hs]
    decide
  · rw [hmain, hs]
    decide

/-- Witness for the amended C4 at the concrete handshake delivery. -/
theorem C4_witness :
    (¬ hsBuf.length ≤ 8 ∧ bufbe32toh hsBuf = 1 ∧ verifyF lim0 = false) ∧
    recvHandshake ksZ hmacZ (fun _ => true) 8192 bdecodeC verifyF dhC 1 7 sessLE hsBuf
      = sessLE := by
  refine ⟨⟨by decide, by decide, rfl⟩, ?_⟩
  exact (C4_sig_invalid_leaves_session ksZ hmacZ (fun _ => true) 8192 bdecodeC verifyF
    dhC 1 7 sessLE hsBuf lim0 (by decide) (by decide) (by decide) rfl rfl).1

/-- Recv of exactly one complete fragment on a ready session with an
empty receive buffer, when VerifyThenDecrypt succeeds. -/
theorem recv_single_fragment (ks : Keystream) (hm : Hmac) (handleMsg : Bytes → Bool)
    (maxMsg now : Nat) (s : BaseSession) (f v : Bytes)
    (hst : s.state = State.eSessionReady) (hbuf : s.recvBuf = [])
    (hflen : f.length = 576)
    (hvd : verifyThenDecrypt ks hm handleMsg s.sessionKey maxMsg s.recvMsg f = (v, true)) :
    recv ks hm handleMsg maxMsg now s f
      = ({ s with lastActive := now, recvMsg := v }, true) := by
  rw [recv, if_neg (by simp [hst])]
  dsimp only
  rw [if_neg (by simp [hbuf])]
  rw [recvFull]
  rw [dif_pos (show FragmentBufferSize ≤ f.length from le_of_le_of_eq (by decide) hflen.symm)]
  dsimp only
  rw [List.take_of_length_le (le_of_eq_of_le hflen (by decide)), hvd]
  rw [if_pos (show (v, true).2 = true from rfl)]
  dsimp only
  rw [List.drop_eq_nil_of_le (le_of_eq_of_le hflen (by decide))]
  rw [recvFull]
  rw [dif_neg (by decide)]
  rw [if_neg (by decide)]

/-- Recv of exactly one complete fragment on a ready session with an
empty receive buffer, when VerifyThenDecrypt fails. -/
theorem recv_single_fragment_fail (ks : Keystream) (hm : Hmac) (handleMsg : Bytes → Bool)
    (maxMsg now : Nat) (s : BaseSession) (f v : Bytes)
    (hst : s.state = State.eSessionReady) (hbuf : s.recvBuf = [])
    (hflen : f.length = 576)
    (hvd : verifyThenDecrypt ks hm handleMsg s.sessionKey maxMsg s.recvMsg f = (v, false)) :
    recv ks hm handleMsg maxMsg now s f
      = ({ s with lastActive := now, recvMsg := v }, false) := by
  rw [recv, if_neg (by simp [hst])]
  dsimp only
  rw [if_neg (by simp [hbuf])]
  rw [recvFull]
  rw [dif_pos (show FragmentBufferSize ≤ f.length from le_of_le_of_eq (by decide) hflen.symm)]
  dsimp only
  rw [List.take_of_length_le (le_of_eq_of_le hflen (by decide)), hvd]
  rw [if_neg (show ¬ ((v, false).2 = true) from by simp)]

/-- C5: the trailing bytes of a handshake delivery are dropped, not
processed.  RecvHandshake hands them to Recv before
EnterState(eSessionReady), so the state guard of Recv rejects them and
the ignored return value discards them: after the handshake the
receive buffer and reassembly buffer are both empty.  Had the same
bytes arrived in an OnRead on the ready session (second and third
conjuncts), the sealed fragment would have been opened and its payload
appended to the reassembly buffer. -/
theorem C5_trailing_dropped :
    recvHandshake ksZ hmacZ (fun _ => true) 8192 bdecodeC verifyT dhC 1 7 sessLE
        hsBufTrail = sessAfterHS ∧
    sessAfterHS.recvBuf = [] ∧ sessAfterHS.recvMsg = [] ∧
    recv ksZ hmacZ (fun _ => true) 8192 7 sessAfterHS tf5
      = ({ sessAfterHS with recvMsg := [5, 6, 7] }, true) := by
  refine ⟨by decide, rfl, rfl, ?_⟩
  have h := recv_single_fragment ksZ hmacZ (fun _ => true) 8192 7 sessAfterHS tf5
    [5, 6, 7] rfl rfl (by decide) (by decide)
  simpa using h

/-- Unfolding equation of the fragmentation loop. -/
theorem buildFragments_eq (ks : Keystream) (hm : Hmac) (key : Bytes) (rands : Nat → Bytes)
    (i : Nat) (data : Bytes) :
    buildFragments ks hm key rands i data =
      if data.length = 0 then []
      else
        encryptThenHash ks hm key (rands i)
            (data.take (min FragmentBodyPayloadSize data.length))
            (data.length - min FragmentBodyPayloadSize data.length == 0)
          :: buildFragments ks hm key rands (i + 1)
              (data.drop (min FragmentBodyPayloadSize data.length)) := by
  rw [buildFragments]

/-- Shape of the sealed fragment stream: one fragment per 512-byte
chunk, each 576 bytes on the wire, CONT_FLAG 1 on every fragment but
the last (0), LEN 512 on every full chunk and the remainder on the
final one. -/
theorem buildFragments_spec (ks : Keystream) (hm : Hmac) (key : Bytes)
    (rands : Nat → Bytes)
    (hlen : ∀ x, (hm key x).length = 32) (hrands : ∀ j, (rands j).length = 576) :
    ∀ n data i, data.length ≤ n → data.length ≠ 0 →
      (buildFragments ks hm key rands i data).map List.length
          = List.replicate ((data.length + 511) / 512) 576 ∧
      (buildFragments ks hm key rands i data).map (fragContFlag ks key)
          = List.replicate ((data.length + 511) / 512 - 1) 1 ++ [0] ∧
      (buildFragments ks hm key rands i data).map (fragLen ks key)
          = List.replicate ((data.length + 511) / 512 - 1) 512
              ++ [data.length - 512 * ((data.length + 511) / 512 - 1)] := by
  intro n
  induction n with
  | zero =>
    intro data i h0 hne
    exact absurd (Nat.le_zero.mp h0) hne
  | succ n ih =>
    intro data i hle hne
    rw [buildFragments_eq, if_neg hne]
    by_cases hsmall : data.length ≤ 512
    · have hmin : min FragmentBodyPayloadSize data.length = data.length := by
        simp only [FragmentBodyPayloadSize]
        omega
      rw [hmin, List.take_of_length_le (Nat.le_refl _),
        List.drop_eq_nil_of_le (Nat.le_refl _),
        show (data.length - data.length == 0) = true from by simp]
      rw [buildFragments_eq, if_pos (show ([] : Bytes).length = 0 from rfl)]
      have hn1 : (data.length + 511) / 512 = 1 := by omega
      have h32 := hlen (encryptThenHashTail ks key (rands i) data true)
      rw [hn1]
      refine ⟨?_, ?_, ?_⟩
      · simp only [List.map_cons, List.map_nil]
        rw [length_encryptThenHash ks hm key (rands i) data true (hrands i) hsmall h32]
        rfl
      · simp only [List.map_cons, List.map_nil]
        rw [seal_fragContFlag ks hm key (rands i) data true (hrands i) h32]
        rfl
      · simp only [List.map_cons, List.map_nil]
        rw [seal_fragLen ks hm key (rands i) data true (hrands i) hsmall h32]
        simp
    · have hmin : min FragmentBodyPayloadSize data.length = 512 := by
        simp only [FragmentBodyPayloadSize]
        omega
      have hb : (data.length - 512 == 0) = false :=
        beq_eq_false_iff_ne.mpr (by omega)
      rw [hmin, hb]
      have hdl : (data.drop 512).length = data.length - 512 := by simp
      have hIH := ih (data.drop 512) (i + 1) (by omega) (by omega)
      rw [hdl] at hIH
      obtain ⟨ih1, ih2, ih3⟩ := hIH
      have htke : (data.take 512).length = 512 := by
        simp
        omega
      have htkele : (data.take 512).length ≤ 512 := le_of_eq htke
      have h32 := hlen (encryptThenHashTail ks key (rands i) (data.take 512) false)
      have hk : (data.length + 511) / 512 = (data.length - 512 + 511) / 512 + 1 := by
        omega
      have hk1 : (data.length - 512 + 511) / 512 ≥ 1 := by omega
      refine ⟨?_, ?_, ?_⟩
      · simp only [List.map_cons, ih1]
        rw [length_encryptThenHash ks hm key (rands i) (data.take 512) false (hrands i)
          htkele h32]
        rw [hk, List.replicate_succ]
      · simp only [List.map_cons, ih2]
        rw [seal_fragContFlag ks hm key (rands i) (data.take 512) false (hrands i) h32]
        have hr : (data.length + 511) / 512 - 1
            = ((data.length - 512 + 511) / 512 - 1) + 1 := by omega
        rw [hr, List.replicate_succ]
        simp
      · simp only [List.map_cons, ih3]
        rw [seal_fragLen ks hm key (rands i) (data.take 512) false (hrands i) htkele h32]
        rw [htke]
        have hr : (data.length + 511) / 512 - 1
            = ((data.length - 512 + 511) / 512 - 1) + 1 := by omega
        have hrem : data.length - 512 - 512 * ((data.length - 512 + 511) / 512 - 1)
            = data.length - 512 * ((data.length + 511) / 512 - 1) := by omega
        rw [hrem] at ih3
        rw [hr, List.replicate_succ]
        simp only [ih3, List.cons_append]
        have harith : List.length data - 512 - 512 * ((List.length data - 512 + 511) / 512 - 1)
            = List.length data - 512 * ((List.length data - 512 + 511) / 512 - 1 + 1) := by
          omega
        rw [harith]

/-- C6: Fragmentation.  For every nonempty message of at most
MAX_LINK_MSG bytes submitted on a ready session, QueueWriteBuffers
succeeds and appends, in order, exactly ceil of length over 512
fragments of exactly 576 wire bytes each; the decrypted CONT_FLAG is 1
on every fragment but the last (0) and the decrypted LEN is 512 on
every full chunk with the final fragment carrying the remainder. -/
theorem C6_fragmentation (ks : Keystream) (hm : Hmac) (rands : Nat → Bytes)
    (now maxMsg : Nat) (s : BaseSession) (M : Bytes)
    (hst : s.state = State.eSessionReady)
    (hM0 : M.length ≠ 0) (hMle : M.length ≤ maxMsg)
    (hlen : ∀ x, (hm s.sessionKey x).length = 32)
    (hrands : ∀ j, (rands j).length = 576) :
    (queueWriteBuffers ks hm rands now s M).2 = true ∧
    (queueWriteBuffers ks hm rands now s M).1.sendq
        = s.sendq ++ buildFragments ks hm s.sessionKey rands 0 M ∧
    (buildFragments ks hm s.sessionKey rands 0 M).length = (M.length + 511) / 512 ∧
    (buildFragments ks hm s.sessionKey rands 0 M).map List.length
        = List.replicate ((M.length + 511) / 512) 576 ∧
    (buildFragments ks hm s.sessionKey rands 0 M).map (fragContFlag ks s.sessionKey)
        = List.replicate ((M.length + 511) / 512 - 1) 1 ++ [0] ∧
    (buildFragments ks hm s.sessionKey rands 0 M).map (fragLen ks s.sessionKey)
        = List.replicate ((M.length + 511) / 512 - 1) 512
            ++ [M.length - 512 * ((M.length + 511) / 512 - 1)] := by
  have hspec := buildFragments_spec ks hm s.sessionKey rands hlen hrands M.length M 0
    (Nat.le_refl _) hM0
  refine ⟨?_, ?_, ?_, hspec.1, hspec.2.1, hspec.2.2⟩
  · rw [queueWriteBuffers, if_neg (by simp [hst])]
  · rw [queueWriteBuffers, if_neg (by simp [hst])]
  · have hcount := congrArg List.length hspec.1
    simpa using hcount

/-- Witness for C6: a 600-byte message yields two fragments of 576
wire bytes, CONT_FLAG values 1, 0 and LEN values 512, 88. -/
theorem C6_witness :
    (sessReady.state = State.eSessionReady ∧ (List.replicate 600 5).length = 600) ∧
    (queueWriteBuffers ksZ hmacZ (fun _ => rand0) 3 sessReady (List.replicate 600 5)).2
        = true ∧
    (buildFragments ksZ hmacZ sessReady.sessionKey (fun _ => rand0) 0
        (List.replicate 600 5)).map List.length = [576, 576] ∧
    (buildFragments ksZ hmacZ sessReady.sessionKey (fun _ => rand0) 0
        (List.replicate 600 5)).map (fragContFlag ksZ sessReady.sessionKey) = [1, 0] ∧
    (buildFragments ksZ hmacZ sessReady.sessionKey (fun _ => rand0) 0
        (List.replicate 600 5)).map (fragLen ksZ sessReady.sessionKey) = [512, 88] := by
  have h := C6_fragmentation ksZ hmacZ (fun _ => rand0) 3 8192 sessReady
    (List.replicate 600 5) rfl (by simp) (by simp) (fun x => by simp [hmacZ])
    (fun j => by simp [rand0])
  refine ⟨⟨rfl, by simp⟩, h.1, ?_, ?_, ?_⟩
  · have := h.2.2.2.1
    simpa using this
  · have := h.2.2.2.2.1
    simpa using this
  · have := h.2.2.2.2.2
    simpa using this

/-- The send offset stays strictly below the fragment size across the
PumpWrite loop, provided the transport never reports more bytes
written than requested. -/
theorem pumpWriteGo_off_lt (accept : Nat → Nat → Nat) (so : Bool)
    (hacc : ∀ n e, accept n e ≤ e) :
    ∀ (q : List Bytes) (k off : Nat) (st : Bool), off < 576 →
      (pumpWriteGo accept so k off st q).1 < 576 := by
  intro q
  induction q with
  | nil =>
    intro k off st hoff
    simpa [pumpWriteGo] using hoff
  | cons f rest ih =>
    intro k off st hoff
    rw [pumpWriteGo]
    split
    · simpa using hoff
    · have hFBS : FragmentBufferSize = 576 := rfl
      rw [hFBS]
      dsimp only
      have hwle : (if so = true then accept k (576 - off) else 0) ≤ 576 - off := by
        split
        · exact hacc _ _
        · exact Nat.zero_le _
      by_cases hw : (if so = true then accept k (576 - off) else 0) ≠ 576 - off
      · rw [if_pos hw]
        dsimp only
        omega
      · rw [if_neg hw]
        exact ih (k + 1) 0 false (by omega)

/-- One iteration of the PumpWrite loop on a short write: the accepted
count is added to the offset, the session stalls and the loop ends
with the head still queued. -/
theorem pumpWriteGo_short (accept : Nat → Nat → Nat) (so : Bool) (k off : Nat)
    (f : Bytes) (rest : List Bytes)
    (h : (if so = true then accept k (FragmentBufferSize - off) else 0)
        ≠ FragmentBufferSize - off) :
    pumpWriteGo accept so k off false (f :: rest)
      = (off + (if so = true then accept k (FragmentBufferSize - off) else 0), true,
          f :: rest) := by
  rw [pumpWriteGo]
  rw [if_neg (by simp)]
  dsimp only
  rw [if_pos h]

/-- One iteration of the PumpWrite loop on a full write: the head is
popped, the offset resets to 0 and the loop continues. -/
theorem pumpWriteGo_full (accept : Nat → Nat → Nat) (so : Bool) (k off : Nat)
    (f : Bytes) (rest : List Bytes)
    (h : (if so = true then accept k (FragmentBufferSize - off) else 0)
        = FragmentBufferSize - off) :
    pumpWriteGo accept so k off false (f :: rest)
      = pumpWriteGo accept so (k + 1) 0 false rest := by
  rw [pumpWriteGo]
  rw [if_neg (by simp)]
  dsimp only
  rw [if_neg (by simp [h])]

/-- C7: Backpressure monotonicity.  Within a PumpWrite call on a
non-stalled session with a head fragment: a short write of s bytes
adds exactly s to sendBufOffset, marks the session stalled and ends
the loop with the queue unchanged; a full write pops the head and
resets sendBufOffset to 0 before the next fragment; and sendBufOffset
always stays in [0, 576). -/
theorem C7_backpressure (accept : Nat → Nat → Nat) (k : Nat) (s : BaseSession)
    (hacc : ∀ n e, accept n e ≤ e) (hoff : s.sendBufOffset < 576) :
    (pumpWrite accept k s).sendBufOffset < 576 ∧
    (∀ f rest, s.sendq = f :: rest → s.stalled = false → s.sockOpen = true →
      (accept k (FragmentBufferSize - s.sendBufOffset)
            < FragmentBufferSize - s.sendBufOffset →
        pumpWrite accept k s = { s with sendBufOffset := s.sendBufOffset + accept k (FragmentBufferSize - s.sendBufOffset), stalled := true }) ∧
      (accept k (FragmentBufferSize - s.sendBufOffset)
            = FragmentBufferSize - s.sendBufOffset →
        pumpWrite accept k s = pumpWrite accept (k + 1) { s with sendBufOffset := 0, sendq := rest })) := by
  constructor
  · exact pumpWriteGo_off_lt accept s.sockOpen hacc s.sendq k s.sendBufOffset s.stalled hoff
  · intro f rest hq hst hso
    constructor
    · intro hshort
      have hgo : pumpWriteGo accept s.sockOpen k s.sendBufOffset s.stalled s.sendq
          = (s.sendBufOffset + accept k (FragmentBufferSize - s.sendBufOffset), true,
              s.sendq) := by
        rw [hq, hst, hso]
        rw [pumpWriteGo_short accept true k s.sendBufOffset f rest (by simp; omega)]
        simp
      rw [pumpWrite, hgo]
    · intro hfull
      have hgo : pumpWriteGo accept s.sockOpen k s.sendBufOffset s.stalled s.sendq
          = pumpWriteGo accept s.sockOpen (k + 1) 0 false rest := by
        rw [hq, hst, hso]
        exact pumpWriteGo_full accept true k s.sendBufOffset f rest (by simp [hfull])
      rw [pumpWrite, hgo, pumpWrite]
      dsimp only
      rw [hst]

/-- Witness for C7: a transport that accepts 100 of the 576 requested
bytes leaves the head queued, adds 100 to the offset and stalls. -/
theorem C7_witness :
    ((∀ n e, (fun (_ : Nat) (e : Nat) => e - 476) n e ≤ e) ∧
      ({ sessReady with sendq := [rand0] } : BaseSession).sendBufOffset < 576) ∧
    pumpWrite (fun _ e => e - 476) 0 { sessReady with sendq := [rand0] }
      = { sessReady with sendq := [rand0], sendBufOffset := 100, stalled := true } := by
  have hacc : ∀ n e, (fun (_ : Nat) (e : Nat) => e - 476) n e ≤ e := by
    intro n e
    simp
  have h := C7_backpressure (fun _ e => e - 476) 0 { sessReady with sendq := [rand0] }
    hacc (by decide)
  have hstep := ((h.2 rand0 [] rfl rfl rfl).1 (by decide))
  refine ⟨⟨hacc, by decide⟩, ?_⟩
  rw [hstep]
  rfl

/-- C8: Close idempotence and send rejection.  The second of two Close
calls performs no further transport shutdown, and leaves the session
exactly as the first left it (with only lastActive refreshed): state
eClose and the socket cleared.  QueueWriteBuffers on any session whose
state is not eSessionReady, in particular a closed one, returns false
and leaves the session, including its send queue, unchanged. -/
theorem C8_close_idempotent (s : BaseSession) (n1 n2 now : Nat) (ks : Keystream)
    (hm : Hmac) (rands : Nat → Bytes) (buf : Bytes) :
    closeDidShutdown (close n1 s) = false ∧
    close n2 (close n1 s) = { close n1 s with lastActive := n2 } ∧
    (close n2 (close n1 s)).state = State.eClose ∧
    (close n2 (close n1 s)).sockOpen = false ∧
    queueWriteBuffers ks hm rands now (close n2 (close n1 s)) buf
        = (close n2 (close n1 s), false) ∧
    (∀ s2 : BaseSession, s2.state ≠ State.eSessionReady →
      queueWriteBuffers ks hm rands now s2 buf = (s2, false)) := by
  refine ⟨rfl, rfl, rfl, rfl, ?_, ?_⟩
  · rw [queueWriteBuffers, if_pos (by simp [close])]
  · intro s2 h2
    rw [queueWriteBuffers, if_pos h2]

/-- C9: upper-layer rejection closes the session.  Opening a sealed
last fragment always resets the reassembly buffer to empty before
VerifyThenDecrypt returns, and returns exactly the result of
HandleRecvLinkMessageBuffer on the reassembled message; when that
result is false, the OnRead callback closes the session. -/
theorem C9_reject_closes (ks : Keystream) (hm : Hmac) (handleMsg : Bytes → Bool)
    (maxMsg : Nat) (bdecode : Bytes → Option LinkIntroMessage)
    (verifyLIM : LinkIntroMessage → Bool) (dh : Bytes → Bytes → Option Bytes)
    (protoVersion now : Nat) (s : BaseSession) (key rand payload : Bytes)
    (hst : s.state = State.eSessionReady) (hbuf : s.recvBuf = [])
    (hkey : s.sessionKey = key)
    (hrand : rand.length = 576) (hpay : payload.length ≤ 512)
    (hlen : ∀ x, (hm key x).length = 32)
    (hmax : payload.length + s.recvMsg.length ≤ maxMsg) :
    verifyThenDecrypt ks hm handleMsg key maxMsg s.recvMsg
        (encryptThenHash ks hm key rand payload true)
      = ([], handleMsg (s.recvMsg ++ payload)) ∧
    (handleMsg (s.recvMsg ++ payload) = false →
      (onRead ks hm handleMsg maxMsg bdecode verifyLIM dh protoVersion now s
          (encryptThenHash ks hm key rand payload true)).state = State.eClose ∧
      (onRead ks hm handleMsg maxMsg bdecode verifyLIM dh protoVersion now s
          (encryptThenHash ks hm key rand payload true)).recvMsg = []) := by
  have hcore := verify_seal ks hm key rand payload s.recvMsg true handleMsg maxMsg
    hrand hpay hlen hmax
  simp only [if_pos rfl] at hcore
  refine ⟨by simpa using hcore, fun hfalse => ?_⟩
  have hvd : verifyThenDecrypt ks hm handleMsg s.sessionKey maxMsg s.recvMsg
      (encryptThenHash ks hm key rand payload true) = ([], false) := by
    rw [hkey]
    simpa [hfalse] using hcore
  have hrecv := recv_single_fragment_fail ks hm handleMsg maxMsg now s
    (encryptThenHash ks hm key rand payload true) []
    hst hbuf (length_encryptThenHash ks hm key rand payload true hrand hpay (hlen _)) hvd
  rw [onRead, if_neg (by simp [hst]), if_pos hst]
  dsimp only
  rw [hrecv]
  dsimp only
  rw [if_neg (by simp)]
  exact ⟨rfl, rfl⟩

/-- Witness for C9 at a concrete rejected message. -/
theorem C9_witness :
    (sessReady.state = State.eSessionReady ∧ sessReady.recvBuf = []) ∧
    verifyThenDecrypt ksZ hmacZ (fun _ => false) [] 8192 sessReady.recvMsg
        (encryptThenHash ksZ hmacZ [] rand0 [9] true) = ([], false) ∧
    (onRead ksZ hmacZ (fun _ => false) 8192 bdecodeC verifyT dhC 1 7 sessReady
        (encryptThenHash ksZ hmacZ [] rand0 [9] true)).state = State.eClose := by
  have h := C9_reject_closes ksZ hmacZ (fun _ => false) 8192 bdecodeC verifyT dhC 1 7
    sessReady [] rand0 [9] rfl rfl rfl (by simp [rand0]) (by decide)
    (fun x => by simp [hmacZ]) (by decide)
  exact ⟨⟨rfl, rfl⟩, h.1, (h.2 rfl).1⟩

/-- C10: empty-message edge case.  On a ready session,
QueueWriteBuffers with a zero-length buffer reports success and
refreshes lastActive while enqueueing no fragment at all. -/
theorem C10_empty_message (ks : Keystream) (hm : Hmac) (rands : Nat → Bytes) (now : Nat)
    (s : BaseSession) (hst : s.state = State.eSessionReady) :
    queueWriteBuffers ks hm rands now s [] = ({ s with lastActive := now }, true) ∧
    (queueWriteBuffers ks hm rands now s []).1.sendq = s.sendq := by
  have h0 : buildFragments ks hm s.sessionKey rands 0 [] = [] := by
    rw [buildFragments_eq, if_pos (show ([] : Bytes).length = 0 from rfl)]
  constructor
  · rw [queueWriteBuffers, if_neg (by simp [hst])]
    dsimp only
    rw [h0, List.append_nil]
  · rw [queueWriteBuffers, if_neg (by simp [hst])]
    dsimp only
    rw [h0, List.append_nil]

/-- Witness for C10 on a concrete ready session. -/
theorem C10_witness :
    sessReady.state = State.eSessionReady ∧
    queueWriteBuffers ksZ hmacZ (fun _ => rand0) 5 sessReady []
      = ({ sessReady with lastActive := 5 }, true) := by
  exact ⟨rfl, (C10_empty_message ksZ hmacZ (fun _ => rand0) 5 sessReady rfl).1⟩

end llarp
